import Mathlib

set_option autoImplicit false

/-!
Verification of the tba-be token-discovery backend.

Shallow embedding of the pool-processor pipeline, token repository,
retry executor, scanner scheduling, reaction engine, watchlist engine,
SSE comment fan-out and comment listing, translated from the TypeScript
sources, together with theorems settling the specification claims.
-/

namespace TbaBe

/-! ## JavaScript-style string helpers -/

/-- JS truthiness of an optional string: `undefined` and the empty string are falsy. -/
def jsTruthy : Option String → Bool
  | none => false
  | some s => !(s == "")

/-- Does `sub` occur at the start of `s`? -/
def startsWithChars : List Char → List Char → Bool
  | [], _ => true
  | _ :: _, [] => false
  | a :: as, b :: bs => a == b && startsWithChars as bs

/-- Does `sub` occur anywhere inside `s`? -/
def occursIn (sub : List Char) : List Char → Bool
  | [] => sub.isEmpty
  | c :: cs => startsWithChars sub (c :: cs) || occursIn sub cs

/-- JS `String.prototype.includes`: substring containment. -/
def strIncludes (s sub : String) : Bool :=
  occursIn sub.toList s.toList

/-- JS `String.prototype.toLowerCase`: per-character lowering (the same
characters `strToLower` maps). -/
def strToLower (s : String) : String :=
  ⟨s.data.map Char.toLower⟩

/-- JS `a || d` for an optional string `a` with default `d`. -/
def jsOrStr (o : Option String) (d : String) : String :=
  match o with
  | none => d
  | some s => if s == "" then d else s

/-! ## Blockchain configuration (`blockchain.config`)

`hooks.zoraCreatorCoin`, `hooks.zoraV4Coin` and `tbaPairings` as consumed by
`PoolProcessorService` and `TokenScannerService`. -/

structure BlockchainCfg where
  zoraCreatorCoinHook : String
  zoraV4CoinHook : String
  tbaPairings : List String
  deriving Repr, DecidableEq

/-! ## Currencies and pools

A resolved `Currency` as seen by the pool processor: `wrapped.address`,
optional `name`/`symbol`, and `decimals`. A `PoolView` is the relevant
observable state of a constructed `Pool` instance: the two currencies, the
derived pool id, current tick, `sqrtRatioX96` rendered to a string, and the
two `toSignificant(6)` price strings (`currency0Price` is the price of
`currency0` denominated in `currency1`, and symmetrically). -/

structure CurrencyView where
  address : String
  name : Option String := none
  symbol : Option String := none
  decimals : Nat := 18
  deriving Repr, DecidableEq

structure PoolView where
  currency0 : CurrencyView
  currency1 : CurrencyView
  poolId : String := ""
  tickCurrent : Int := 0
  sqrtPriceX96 : String := "0"
  currency0Price : String := "0"
  currency1Price : String := "0"
  deriving Repr, DecidableEq

/-- A pool key with its discovery block number, as assembled by
`transformLogsToPoolKeys`. -/
structure PoolKeyE where
  currency0 : String := ""
  currency1 : String := ""
  fee : Int := 0
  tickSpacing : Int := 0
  hooks : String := ""
  blockNumber : Nat := 0
  deriving Repr, DecidableEq

/-! ## Token metadata (`shared` interface `TokenMetadata`)

Optional fields of the TS interface become `Option`; `createdAt`/`updatedAt`
(JS `Date`) are carried as optional ISO strings. -/

structure TokenMetadata where
  id : String := ""
  name : String := ""
  symbol : String := ""
  poolAddress : Option String := none
  currency0 : Option String := none
  currency1 : Option String := none
  fee : Option Int := none
  blockNumber : Option String := none
  timestamp : Option Int := none
  createdAt : Option String := none
  updatedAt : Option String := none
  appType : Option String := none
  coinType : Option String := none
  decimals : Option Nat := none
  address : Option String := none
  tick : Option Int := none
  sqrtPriceX96 : Option String := none
  price : Option String := none
  timestampISO : Option String := none
  deriving Repr, DecidableEq

/-! ## Pool processor (`pool-processor.service.ts`) -/

/-- The source's `determineCoinType`: hook equal to the configured `zoraCreatorCoin` hook
gives `ZORA_CREATOR_COIN`, anything else `ZORA_V4_COIN`. -/
def determineCoinType (cfg : BlockchainCfg) (hooks : String) : String :=
  if hooks == cfg.zoraCreatorCoinHook then "ZORA_CREATOR_COIN" else "ZORA_V4_COIN"

/-- The source's `determineAppType`: `TBA` when either currency address is in
`config.tbaPairings`, else `ZORA`. -/
def determineAppType (cfg : BlockchainCfg) (pool : PoolView) : String :=
  if cfg.tbaPairings.contains pool.currency0.address
      || cfg.tbaPairings.contains pool.currency1.address then "TBA" else "ZORA"

/-- The source's `getTokenCurrencyAndPrice`: if `currency0` is a base pairing the token is
`currency1` with `currency1Price`, otherwise `currency0` with `currency0Price`. -/
def getTokenCurrencyAndPrice (cfg : BlockchainCfg) (pool : PoolView)
    (currency0Price currency1Price : String) : CurrencyView × String :=
  if cfg.tbaPairings.contains pool.currency0.address then
    (pool.currency1, currency1Price)
  else
    (pool.currency0, currency0Price)

/-- A JS error value: optional HTTP `status` and a `message`. -/
structure JsError where
  status : Option Nat := none
  message : String := ""
  deriving Repr, DecidableEq

/-- The source's `processPool`: given the outcome of the (retried) `loadPoolData` call for
a key, either build the `TokenMetadata` record or emit the `null` sentinel.
The `iso` parameter stands for the external `Date#toISOString` rendering. -/
def processPool (cfg : BlockchainCfg) (cache : Nat → Nat) (iso : Nat → String)
    (key : PoolKeyE) (load : Except JsError PoolView) : Option TokenMetadata :=
  match load with
  | .error _ => none
  | .ok pool =>
    let currency0Price := pool.currency0Price
    let currency1Price := pool.currency1Price
    let coinType := determineCoinType cfg key.hooks
    let appType := determineAppType cfg pool
    let sel := getTokenCurrencyAndPrice cfg pool currency0Price currency1Price
    let tokenCurrency := sel.1
    let price := sel.2
    let blockTimestamp := cache key.blockNumber
    some
      { id := pool.poolId
        name := jsOrStr tokenCurrency.name "Unknown"
        symbol := jsOrStr tokenCurrency.symbol "UNKNOWN"
        decimals := some tokenCurrency.decimals
        address := some tokenCurrency.address
        tick := some pool.tickCurrent
        sqrtPriceX96 := some pool.sqrtPriceX96
        price := some price
        coinType := some coinType
        appType := some appType
        blockNumber := some (toString key.blockNumber)
        timestamp := some (Int.ofNat blockTimestamp)
        timestampISO := some (iso blockTimestamp) }

/-! ## Batch executor (`shared/utils/batching.ts`)

The pure result sequence of `batching`: items are processed in chunks of
`batchSize` and all results (including sentinels) are concatenated in input
order. The inter-batch delay does not affect the result value. The source's
`for` loop advances by `batchSize`; it is only ever called with a positive
batch size (3 and 10). -/

def batching {α β : Type} (f : α → β) (batchSize : Nat) (items : List α) : List β :=
  match items with
  | [] => []
  | x :: xs => ((x :: xs).take batchSize).map f ++ batching f batchSize (xs.drop (batchSize - 1))
termination_by items.length
decreasing_by
  simp only [List.length_cons]
  have := List.length_drop (batchSize - 1) xs
  omega

/-- The source's `processPoolsBatched`: batch size 3, each key processed via `processPool`
(`res ? res : null` maps a falsy result to the `null` sentinel, which for an
object-or-null value is the identity). -/
def processPoolsBatched (cfg : BlockchainCfg) (cache : Nat → Nat) (iso : Nat → String)
    (load : PoolKeyE → Except JsError PoolView) (poolKeys : List PoolKeyE) :
    List (Option TokenMetadata) :=
  batching (fun key => processPool cfg cache iso key (load key)) 3 poolKeys

/-! ## Retry executor (`retry.service.ts`) -/

/-- The rate-limit predicate of `retryWithBackoff`: status 429, or message
containing "429" or "rate limit". -/
def isRateLimit (e : JsError) : Bool :=
  e.status == some 429 || strIncludes e.message "429" || strIncludes e.message "rate limit"

/-- The error thrown by the final `throw new Error('Max retries exceeded')`. -/
def maxRetriesExceededError : JsError := { message := "Max retries exceeded" }

/-- Observable outcome of a `retryWithBackoff` run: the surfaced result, the
number of invocations of `fn`, and the backoff delays slept (in ms). -/
structure RetryTrace (α : Type) where
  result : Except JsError α
  calls : Nat
  delays : List Nat
  deriving Repr

/-- The retry loop of `retryWithBackoff`, with `fn`'s successive outcomes
given by `attempts`. The second numeric argument is the current attempt
index, the third the number of loop iterations left (`maxRetries - attempt`,
so the loop guard `attempt < maxRetries` is `remaining > 0`). On failure the
loop retries (after sleeping `baseDelay * 2 ^ attempt` ms) only when the
failure is rate-limited and `attempt < maxRetries - 1`, otherwise it
rethrows; the trailing `throw new Error('Max retries exceeded')` is reached
only when the loop body never runs. -/
def retryLoop {α : Type} (attempts : Nat → Except JsError α)
    (maxRetries baseDelay : Nat) : Nat → Nat → RetryTrace α
  | _, 0 => ⟨.error maxRetriesExceededError, 0, []⟩
  | attempt, remaining + 1 =>
    match attempts attempt with
    | .ok a => ⟨.ok a, 1, []⟩
    | .error e =>
      if isRateLimit e && decide (attempt < maxRetries - 1) then
        let rest := retryLoop attempts maxRetries baseDelay (attempt + 1) remaining
        ⟨rest.result, rest.calls + 1, baseDelay * 2 ^ attempt :: rest.delays⟩
      else ⟨.error e, 1, []⟩

/-- The source's `retryWithBackoff` with defaults `maxRetries = 3`, `baseDelay = 1000`. -/
def retryWithBackoff {α : Type} (attempts : Nat → Except JsError α)
    (maxRetries : Nat := 3) (baseDelay : Nat := 1000) : RetryTrace α :=
  retryLoop attempts maxRetries baseDelay 0 maxRetries

/-! ## Token repository (`token.repository.ts`) -/

/-- Metadata block of a stored partition (`TokensData.metadata`). -/
structure TokensMeta where
  lastUpdated : String
  totalTokens : Nat
  creatorCoins : Nat
  v4Coins : Nat
  type : String
  deriving Repr, DecidableEq

/-- A stored partition (`TokensData`): the records plus their metadata. -/
structure TokensData where
  tokens : List TokenMetadata
  metadata : TokensMeta
  deriving Repr, DecidableEq

/-- One `Map#set` step on an insertion-ordered association list: an existing
key keeps its position and gets the new value, a fresh key is appended. -/
def mapSet (m : List (String × TokenMetadata)) (k : String) (v : TokenMetadata) :
    List (String × TokenMetadata) :=
  if m.any (fun p => p.1 == k) then
    m.map (fun p => if p.1 == k then (k, v) else p)
  else m ++ [(k, v)]

/-- The `forEach` loop body of `mergeTokens`: set the record under its
address key, skipping records with a falsy `address`. -/
def indexStep (m : List (String × TokenMetadata)) (t : TokenMetadata) :
    List (String × TokenMetadata) :=
  match t.address with
  | none => m
  | some a => if a == "" then m else mapSet m a t

/-- The `forEach` loops of `mergeTokens`: fold tokens into the address-keyed
map. -/
def indexTokens (m : List (String × TokenMetadata)) (ts : List TokenMetadata) :
    List (String × TokenMetadata) :=
  ts.foldl indexStep m

/-- The source's `TokenRepository.mergeTokens`: index the existing records, overwrite with
the new ones, and return the map's values. -/
def mergeTokens (existing newTokens : List TokenMetadata) : List TokenMetadata :=
  (indexTokens (indexTokens [] existing) newTokens).map (fun p => p.2)

/-- First-match lookup on the insertion-ordered association list. -/
def lookupA (m : List (String × TokenMetadata)) (a : String) : Option TokenMetadata :=
  (m.find? (fun p => p.1 == a)).map (fun p => p.2)

/-- Does the record carry the (truthy) address `a`? -/
def truthyMatch (t : TokenMetadata) (a : String) : Bool :=
  match t.address with
  | none => false
  | some b => !(b == "") && b == a

/-- The newest (last) record of a list carrying truthy address `a` — the
record that wins the merge for that address. -/
def lastMatch (a : String) : List TokenMetadata → Option TokenMetadata
  | [] => none
  | t :: ts =>
    match lastMatch a ts with
    | some u => some u
    | none => if truthyMatch t a then some t else none

/-- The metadata recomputed by `storeTokens` for one partition. -/
def computeMeta (timestamp : String) (ty : String) (tokens : List TokenMetadata) : TokensMeta :=
  { lastUpdated := timestamp
    totalTokens := tokens.length
    creatorCoins := (tokens.filter (fun t => t.coinType == some "ZORA_CREATOR_COIN")).length
    v4Coins := (tokens.filter (fun t => t.coinType == some "ZORA_V4_COIN")).length
    type := ty }

/-- The source's `TokenRepository.storeTokens` as a pure state transformer: split the new
records by `appType`, merge each side into the existing partition contents,
and rebuild both partitions with fresh metadata. -/
def storeTokens (existingZora existingTba : Option TokensData)
    (tokens : List TokenMetadata) (timestamp : String) : TokensData × TokensData :=
  let zoraTokens := tokens.filter (fun t => t.appType == some "ZORA")
  let tbaTokens := tokens.filter (fun t => t.appType == some "TBA")
  let finalZoraTokens := mergeTokens ((existingZora.map TokensData.tokens).getD []) zoraTokens
  let finalTbaTokens := mergeTokens ((existingTba.map TokensData.tokens).getD []) tbaTokens
  (⟨finalZoraTokens, computeMeta timestamp "ZORA" finalZoraTokens⟩,
   ⟨finalTbaTokens, computeMeta timestamp "TBA" finalTbaTokens⟩)

/-! ## The scanner's consumers of the processed list (`token-scanner.service.ts`)

`scanTokens` hands the list produced by `processPoolsBatched` — whose
elements may be `null` sentinels — directly to `storeTokens` and
`createScanResult`. Both immediately evaluate `t.appType` on every element,
which on a `null` element raises a `TypeError`; the embeddings therefore
return `Except`, erroring exactly when a sentinel is present. -/

/-- JS `TypeError` raised by reading a property of `null`. -/
def nullTypeError : JsError := { message := "Cannot read properties of null" }

/-- The call of `storeTokens` as invoked by the scanner on the raw processed list. -/
def storeTokensChecked (existingZora existingTba : Option TokensData)
    (tokens : List (Option TokenMetadata)) (timestamp : String) :
    Except JsError (TokensData × TokensData) :=
  if tokens.all Option.isSome then
    .ok (storeTokens existingZora existingTba (tokens.filterMap id) timestamp)
  else .error nullTypeError

/-- The statistics fields of `ScanResult` built by `createScanResult`. -/
structure ScanStats where
  blocksScanned : Nat
  poolsDiscovered : Nat
  tokensAdded : Nat
  tokensFound : Nat
  zoraTokens : Nat
  tbaTokens : Nat
  deriving Repr, DecidableEq

/-- The source's `createScanResult` on the raw processed list: filtering on `t.appType`
raises on a `null` element; otherwise the counters count the list. -/
def createScanResult (tokens : List (Option TokenMetadata)) : Except JsError ScanStats :=
  if tokens.all Option.isSome then
    let ts := tokens.filterMap id
    .ok
      { blocksScanned := ts.length
        poolsDiscovered := ts.length
        tokensAdded := ts.length
        tokensFound := ts.length
        zoraTokens := (ts.filter (fun t => t.appType == some "ZORA")).length
        tbaTokens := (ts.filter (fun t => t.appType == some "TBA")).length }
  else .error nullTypeError

/-! ## Scanner scheduling (`token-scanner.service.ts`, `tokens.service.ts`)

The scheduled cron callback checks the `isScanning` flag and silently
returns when a scan is in progress; only then does it call `scanTokens`,
whose first statement sets the flag (no suspension point in between, so the
check-and-set is atomic on the event loop). `TokensService.triggerManualScan`
calls `scanTokens()` directly, with no flag check. `scanTokens` clears the
flag in its `finally` block. -/

/-- Scheduler-visible scanner state: the `isScanning` flag and the number of
`scanTokens` executions currently in flight. -/
structure ScannerState where
  isScanning : Bool
  running : Nat
  deriving Repr, DecidableEq

/-- Trigger events hitting the scanner: a scheduled cron tick, a manual scan
request (`POST /tokens/scan`), or completion of one in-flight scan. -/
inductive ScanEv where
  | tick
  | manual
  | finish
  deriving Repr, DecidableEq

/-- One scheduler step. A tick is dropped when `isScanning` is set; a manual
request always enters `scanTokens`; a completing scan clears the flag. -/
def scannerStep (s : ScannerState) (e : ScanEv) : ScannerState :=
  match e with
  | .tick => if s.isScanning then s else ⟨true, s.running + 1⟩
  | .manual => ⟨true, s.running + 1⟩
  | .finish => if s.running == 0 then s else ⟨false, s.running - 1⟩

/-- Run the scanner state machine from the initial idle state. -/
def scannerRun (es : List ScanEv) : ScannerState :=
  es.foldl scannerStep ⟨false, 0⟩

/-! ## Reaction engine (`emoji-events.handler.ts`, `emoji.service.ts`) -/

/-- The five reaction kinds (`EmojiType`). -/
inductive EmojiType where
  | like
  | love
  | laugh
  | wow
  | sad
  deriving Repr, DecidableEq

/-- The `emoji:<lc(token)>` hash: one optional integer per field. `none`
means the field is absent from the hash. -/
structure EmojiHash where
  like : Option Int := none
  love : Option Int := none
  laugh : Option Int := none
  wow : Option Int := none
  sad : Option Int := none
  deriving Repr, DecidableEq

/-- Redis `hget` on the emoji hash. -/
def hgetE (h : EmojiHash) : EmojiType → Option Int
  | .like => h.like
  | .love => h.love
  | .laugh => h.laugh
  | .wow => h.wow
  | .sad => h.sad

/-- Redis `hset` on the emoji hash. -/
def hsetE (h : EmojiHash) (k : EmojiType) (v : Int) : EmojiHash :=
  match k with
  | .like => { h with like := some v }
  | .love => { h with love := some v }
  | .laugh => { h with laugh := some v }
  | .wow => { h with wow := some v }
  | .sad => { h with sad := some v }

/-- A normalized counts object with all five fields present
(missing fields 0, then the hash contents spread on top). -/
structure EmojiCounts where
  like : Int
  love : Int
  laugh : Int
  wow : Int
  sad : Int
  deriving Repr, DecidableEq

/-- Field access on a normalized counts object. -/
def countOf (c : EmojiCounts) : EmojiType → Int
  | .like => c.like
  | .love => c.love
  | .laugh => c.laugh
  | .wow => c.wow
  | .sad => c.sad

/-- Normalize a hash to all-five-fields counts, absent fields defaulting
to 0 (the handler's spread over the zero object, and the service's
`counts.x || '0'` fallbacks). -/
def normalizeCounts (h : EmojiHash) : EmojiCounts :=
  ⟨h.like.getD 0, h.love.getD 0, h.laugh.getD 0, h.wow.getD 0, h.sad.getD 0⟩

/-- An `emoji.reacted` event payload. -/
structure EmojiEvent where
  tokenAddress : String
  emoji : EmojiType
  increment : Int
  deriving Repr, DecidableEq

/-- The `emojiCountUpdate` message published on `emojiUpdates:<lc(token)>`. -/
structure EmojiMsg where
  channel : String
  counts : EmojiCounts
  emoji : EmojiType
  previousCount : Int
  newCount : Int
  deriving Repr, DecidableEq

/-- The channel for a token's reaction updates. -/
def emojiChannel (tokenAddress : String) : String :=
  "emojiUpdates:" ++ (strToLower tokenAddress)

/-- The source's `handleEmojiReacted`: read the previous count (`hget`, absent parsed as
0), increment atomically (`hincrby`), read all counts; if the new count
regressed below the previous one, revert the field and publish nothing,
otherwise publish exactly one normalized `emojiCountUpdate` message.
Returns the final hash and the list of published messages. -/
def handleEmojiReacted (h : EmojiHash) (ev : EmojiEvent) : EmojiHash × List EmojiMsg :=
  let previousCount := (hgetE h ev.emoji).getD 0
  let newCount := (hgetE h ev.emoji).getD 0 + ev.increment
  let h1 := hsetE h ev.emoji newCount
  if newCount < previousCount then
    (hsetE h1 ev.emoji previousCount, [])
  else
    (h1, [{ channel := emojiChannel ev.tokenAddress
            counts := normalizeCounts h1
            emoji := ev.emoji
            previousCount := previousCount
            newCount := newCount }])

/-- The source's `EmojiService.getCounts`: `hgetall` normalized with zero defaults. -/
def getCounts (h : EmojiHash) : EmojiCounts :=
  normalizeCounts h

/-! ## Watchlist engine (`watchlist.service.ts`) -/

/-- A user row (`User`): id and lower-cased wallet address. -/
structure WUser where
  id : Nat
  walletAddress : String
  deriving Repr, DecidableEq

/-- A watchlist row (`TokenWatchlist`). -/
structure WRow where
  userId : Nat
  tokenAddress : String
  deriving Repr, DecidableEq

/-- A published watchlist event. -/
structure WEvent where
  eventName : String
  userId : Nat
  tokenAddresses : List String
  deriving Repr, DecidableEq

/-- Combined observable state touched by the watchlist service: the user
table, the watchlist table, the Redis sets (keyed association list), and
the log of published events. -/
structure WatchSt where
  users : List WUser := []
  rows : List WRow := []
  cacheSets : List (String × List String) := []
  events : List WEvent := []
  nextId : Nat := 0
  deriving Repr, DecidableEq

/-- Redis `sadd key member` over the association-list model of Redis sets. -/
def saddKey (sets : List (String × List String)) (key member : String) :
    List (String × List String) :=
  if sets.any (fun p => p.1 == key) then
    sets.map (fun p =>
      if p.1 == key then (p.1, if p.2.contains member then p.2 else p.2 ++ [member]) else p)
  else sets ++ [(key, [member])]

/-- The source's `prisma.user.upsert` keyed by wallet address: return the existing user
or create one with a fresh id. -/
def upsertUser (st : WatchSt) (walletAddress : String) : WatchSt × WUser :=
  match st.users.find? (fun u => u.walletAddress == walletAddress) with
  | some u => (st, u)
  | none =>
    let u : WUser := ⟨st.nextId, walletAddress⟩
    ({ st with users := st.users ++ [u], nextId := st.nextId + 1 }, u)

/-- Does the watchlist table contain a row for this user and address? -/
def hasRow (rows : List WRow) (uid : Nat) (a : String) : Bool :=
  rows.any (fun r => r.userId == uid && r.tokenAddress == a)

/-- Number of watchlist rows for a given user and address. -/
def countRows (rows : List WRow) (uid : Nat) (a : String) : Nat :=
  (rows.filter (fun r => r.userId == uid && r.tokenAddress == a)).length

/-- The source's `tokenWatchlist.createMany` with `skipDuplicates`: insert one row per
address, skipping any that would collide with an existing or just-inserted
`(userId, tokenAddress)` pair. -/
def createManySkipDup (rows : List WRow) (uid : Nat) (addrs : List String) : List WRow :=
  addrs.foldl (fun rs a => if hasRow rs uid a then rs else rs ++ [⟨uid, a⟩]) rows

/-- The source's `WatchlistService.addToWatchlist`: normalize, upsert the user, compute
the addresses not already watched, and — unless that set is empty — batch
insert them, `sadd` them into the wallet's cache set, and publish one
`user.watchlist.token.added` event. Returns the new state and `addedCount`. -/
def addToWatchlist (st : WatchSt) (walletAddress : String) (tokenAddresses : List String) :
    WatchSt × Nat :=
  let w := (strToLower walletAddress)
  let ts := tokenAddresses.map strToLower
  let stUser := upsertUser st w
  let st1 := stUser.1
  let user := stUser.2
  let existingItems :=
    (st1.rows.filter (fun r => r.userId == user.id && ts.contains r.tokenAddress)).map
      (fun r => r.tokenAddress)
  let newAddresses := ts.filter (fun a => !(existingItems.contains a))
  if newAddresses.isEmpty then (st1, 0)
  else
    ({ st1 with
        rows := createManySkipDup st1.rows user.id newAddresses
        cacheSets := newAddresses.foldl (fun cs a => saddKey cs ("watchlist:" ++ w) a) st1.cacheSets
        events := st1.events ++ [⟨"user.watchlist.token.added", user.id, newAddresses⟩] },
     newAddresses.length)

/-! ## SSE comment fan-out (`comments.controller.ts`, `redis.service.ts`)

`RedisService` holds one shared subscriber connection. `subscribe(channel,
handler)` subscribes the connection to the channel (a repeat subscribe to
the same channel adds no second external subscription) and registers one
more connection-level message listener; `unsubscribe(channel)` drops the
connection's subscription to the channel and removes no listener. Each SSE
stream calls `subscribe` on open and `unsubscribe` on client close. -/

/-- Fan-out state: the subscriber connection's channel set, the registered
message listeners (channel, client id), and the connected SSE clients. -/
structure SseSt where
  subs : List String := []
  listeners : List (String × Nat) := []
  clients : List (String × Nat) := []
  deriving Repr, DecidableEq

/-- Opening a comment stream: `redis.subscribe(channel, handler)` plus the
new in-process client. -/
def streamOpen (st : SseSt) (channel : String) (cid : Nat) : SseSt :=
  { st with
      subs := if st.subs.contains channel then st.subs else st.subs ++ [channel]
      listeners := st.listeners ++ [(channel, cid)]
      clients := st.clients ++ [(channel, cid)] }

/-- A client disconnect: the `close` handler calls
`redis.unsubscribe(channel)`; the message listener is never removed. -/
def clientClose (st : SseSt) (channel : String) (cid : Nat) : SseSt :=
  { st with
      subs := st.subs.filter (fun c => !(c == channel))
      clients := st.clients.filter (fun p => !(p == (channel, cid))) }

/-- Which client ids receive a message published on `channel`: the message
reaches the process only while the connection is subscribed, and is then
forwarded by every listener registered for that channel. -/
def deliver (st : SseSt) (channel : String) : List Nat :=
  if st.subs.contains channel then
    (st.listeners.filter (fun p => p.1 == channel)).map (fun p => p.2)
  else []

/-! ## Comment listing (`comments.controller.ts`, `comments.service.ts`) -/

/-- A stored comment; `createdAt` as an epoch number. -/
structure Comment where
  id : String := ""
  tokenAddress : String := ""
  userId : String := ""
  content : String := ""
  createdAt : Int := 0
  deriving Repr, DecidableEq

/-- The effective limit applied by `getComments` and `stream`:
`DefaultValuePipe(30)` when the query parameter is omitted, then
`Math.min(Math.max(limit, 1), 100)`. -/
def effectiveLimit (q : Option Int) : Int :=
  min (max (q.getD 30) 1) 100

/-- Newest-first ordering on comments. -/
def newestFirst (a b : Comment) : Bool :=
  decide (b.createdAt ≤ a.createdAt)

/-- The source's `CommentsService.getLatest`: `lrange list 0 (max 0 (limit-1))` over the
cached newest-first list; on an empty cache, fall back to the database
query `orderBy createdAt desc, take limit`. (The cache-warming side effect
of the fallback is not observed by any caller modelled here.) -/
def getLatest (cache db : List Comment) (limit : Int) : List Comment :=
  let raw := cache.take (((max 0 (limit - 1)).toNat) + 1)
  if raw.isEmpty then (db.mergeSort newestFirst).take limit.toNat else raw

/-- Newest-first sortedness of a comment list. -/
def NewestFirstSorted (l : List Comment) : Prop :=
  l.Pairwise (fun a b => newestFirst a b = true)

/-- Endpoint `GET /comments/:tokenAddress` — the returned comment list. -/
def getCommentsEndpoint (cache db : List Comment) (limitQ : Option Int) : List Comment :=
  getLatest cache db (effectiveLimit limitQ)

/-- The `initialComments` snapshot sent by `GET /comments/stream/:tokenAddress`. -/
def streamInitialComments (cache db : List Comment) (initialQ : Option Int) : List Comment :=
  getLatest cache db (effectiveLimit initialQ)

/-! # Theorems

First the shared helper lemmas, then one theorem per specification claim
(with its witness or counterexample where required). -/

/-! ### Claim C1 — pool classification -/

/-- Claim C1: for every pool key whose on-chain load succeeds, the produced
record is Paired (`TBA`) exactly when either resolved currency's address is
in the configured base-pairings set; in that case the token side is the
non-base currency with that currency's price, with `currency1` picked on a
tie where both are base pairings; otherwise the record is Primary (`ZORA`)
and the token side is `currency0` with its price in `currency1`. -/
theorem poolClassification_spec (cfg : BlockchainCfg) (cache : Nat → Nat)
    (iso : Nat → String) (key : PoolKeyE) (pool : PoolView) (r : TokenMetadata)
    (hr : processPool cfg cache iso key (Except.ok pool) = some r) :
    (r.appType = some "TBA" ↔
      (pool.currency0.address ∈ cfg.tbaPairings ∨
       pool.currency1.address ∈ cfg.tbaPairings))
    ∧ (pool.currency0.address ∈ cfg.tbaPairings →
        pool.currency1.address ∉ cfg.tbaPairings →
        r.address = some pool.currency1.address ∧ r.price = some pool.currency1Price)
    ∧ (pool.currency0.address ∉ cfg.tbaPairings →
        pool.currency1.address ∈ cfg.tbaPairings →
        r.address = some pool.currency0.address ∧ r.price = some pool.currency0Price)
    ∧ (pool.currency0.address ∈ cfg.tbaPairings →
        pool.currency1.address ∈ cfg.tbaPairings →
        r.address = some pool.currency1.address ∧ r.price = some pool.currency1Price)
    ∧ (pool.currency0.address ∉ cfg.tbaPairings →
        pool.currency1.address ∉ cfg.tbaPairings →
        r.appType = some "ZORA" ∧ r.address = some pool.currency0.address ∧
          r.price = some pool.currency0Price) := by
  simp only [processPool, Option.some.injEq] at hr
  subst hr
  by_cases h0 : pool.currency0.address ∈ cfg.tbaPairings
  · by_cases h1 : pool.currency1.address ∈ cfg.tbaPairings
    · simp [determineAppType, getTokenCurrencyAndPrice, h0, h1]
    · simp [determineAppType, getTokenCurrencyAndPrice, h0, h1]
  · by_cases h1 : pool.currency1.address ∈ cfg.tbaPairings
    · simp [determineAppType, getTokenCurrencyAndPrice, h0, h1]
    · simp [determineAppType, getTokenCurrencyAndPrice, h0, h1]

/-- Witness for C1 at a concrete paired pool (base pairing on `currency0`). -/
theorem poolClassification_spec_witness :
    (((processPool ⟨"0xhookA", "0xhookB", ["0xusdc"]⟩ (fun _ => 1700000000)
        (fun _ => "iso") {}
        (Except.ok { currency0 := { address := "0xusdc" },
                     currency1 := { address := "0xtoken" },
                     currency1Price := "0.000500" })).getD {}).address = some "0xtoken")
    ∧ (((processPool ⟨"0xhookA", "0xhookB", ["0xusdc"]⟩ (fun _ => 1700000000)
        (fun _ => "iso") {}
        (Except.ok { currency0 := { address := "0xusdc" },
                     currency1 := { address := "0xtoken" },
                     currency1Price := "0.000500" })).getD {}).price = some "0.000500") :=
  (poolClassification_spec ⟨"0xhookA", "0xhookB", ["0xusdc"]⟩ (fun _ => 1700000000)
      (fun _ => "iso") {}
      { currency0 := { address := "0xusdc" },
        currency1 := { address := "0xtoken" },
        currency1Price := "0.000500" } _ rfl).2.1 (by decide) (by decide)

/-! ### Claim C3 — retry executor -/

/-- Counterexample to C3: when every attempt fails rate-limited, the retry
executor surfaces the last underlying 429 error itself, not the
`Max retries exceeded` exhaustion error the claim (and spec) promise. -/
theorem retry_exhaustion_cex :
    (retryWithBackoff (fun _ => (Except.error { status := some 429 } : Except JsError Nat))).result
      = Except.error { status := some 429 }
    ∧ ({ status := some 429 } : JsError) ≠ maxRetriesExceededError := by
  exact ⟨rfl, by decide⟩

/-- Claim C3 (amended): with the default `maxAttempts = 3`, a failure not
matching the rate-limit predicate propagates immediately after one
invocation; rate-limited failures are retried with exponential backoff
(1 s, then 2 s), the function being invoked at most three times; and when
every attempt fails rate-limited the surfaced failure is the LAST
underlying rate-limited error (the `Max retries exceeded` exhaustion error
is unreachable). -/
theorem retry_spec_amended {α : Type} (attempts : Nat → Except JsError α) :
    (∀ e, attempts 0 = Except.error e → isRateLimit e = false →
      retryWithBackoff attempts = ⟨Except.error e, 1, []⟩)
    ∧ (retryWithBackoff attempts).calls ≤ 3
    ∧ (retryWithBackoff attempts).delays =
        (List.range ((retryWithBackoff attempts).calls - 1)).map (fun i => 1000 * 2 ^ i)
    ∧ (∀ e0 e1 e2, attempts 0 = Except.error e0 → attempts 1 = Except.error e1 →
        attempts 2 = Except.error e2 →
        isRateLimit e0 = true → isRateLimit e1 = true → isRateLimit e2 = true →
        retryWithBackoff attempts = ⟨Except.error e2, 3, [1000, 2000]⟩) := by
  refine ⟨?_, ?_, ?_, ?_⟩
  · intro e h0 hrl
    simp [retryWithBackoff, retryLoop, h0, hrl]
  · rcases h0 : attempts 0 with a0 | e0 <;>
      rcases h1 : attempts 1 with a1 | e1 <;>
      rcases h2 : attempts 2 with a2 | e2 <;>
      simp [retryWithBackoff, retryLoop, h0, h1, h2] <;>
      (try split_ifs) <;>
      simp
  · rcases h0 : attempts 0 with a0 | e0 <;>
      rcases h1 : attempts 1 with a1 | e1 <;>
      rcases h2 : attempts 2 with a2 | e2 <;>
      simp [retryWithBackoff, retryLoop, h0, h1, h2, List.range_succ] <;>
      (try split_ifs) <;>
      simp [List.range_succ]
  · intro e0 e1 e2 h0 h1 h2 r0 r1 r2
    simp [retryWithBackoff, retryLoop, h0, h1, h2, r0, r1, r2]

/-- Witness for C3 (amended) at a fully rate-limited run: all three
attempts fail with a message containing "rate limit". -/
theorem retry_spec_amended_witness :
    retryWithBackoff (fun _ => (Except.error { message := "rate limit hit" } : Except JsError Nat))
      = ⟨Except.error { message := "rate limit hit" }, 3, [1000, 2000]⟩ :=
  (retry_spec_amended (fun _ => (Except.error { message := "rate limit hit" } : Except JsError Nat))).2.2.2
    { message := "rate limit hit" } { message := "rate limit hit" } { message := "rate limit hit" }
    rfl rfl rfl (by decide) (by decide) (by decide)

/-! ### Claim C4 — null sentinels for failed pools -/

/-- Claim C4 (code bug): for a pool key whose processing fails, the pool
processor does emit the `null` sentinel — but the scanner hands the raw
list to the repository write and the statistics builder without dropping
the sentinel, so both observe it (reading `appType` of `null` raises a
`TypeError` instead of the sentinel being dropped as documented). -/
theorem nullSentinel_reaches_consumers :
    processPoolsBatched ⟨"0xhookA", "0xhookB", []⟩ (fun _ => 0) (fun _ => "iso")
        (fun _ => Except.error { message := "HTTP timeout" }) [{}] = [none]
    ∧ storeTokensChecked none none [none] "2024-01-01T00:00:00.000Z"
        = Except.error nullTypeError
    ∧ createScanResult [none] = Except.error nullTypeError := by
  refine ⟨?_, ?_, ?_⟩
  · simp [processPoolsBatched, batching, processPool]
  · simp [storeTokensChecked]
  · simp [createScanResult]

/-! ### Claim C5 — scanner exclusivity -/

/-- Counterexample to C5: a manual scan request arriving one step after a
scheduled tick started a scan is not dropped — the reachable state has two
scan cycles in flight. -/
theorem scanner_concurrent_cex :
    (scannerRun [ScanEv.tick, ScanEv.manual]).running = 2
    ∧ ¬ (scannerRun [ScanEv.tick, ScanEv.manual]).running ≤ 1 := by
  decide

/-- The inductive invariant of tick/finish-only traces: the number of scans
in flight matches the `isScanning` flag. -/
theorem scannerStep_noManual_inv (s : ScannerState) (e : ScanEv) (he : e ≠ ScanEv.manual)
    (hs : s.running = if s.isScanning then 1 else 0) :
    (scannerStep s e).running = if (scannerStep s e).isScanning then 1 else 0 := by
  cases e with
  | tick =>
    by_cases h : s.isScanning <;> simp_all [scannerStep]
  | manual => exact absurd rfl he
  | finish =>
    by_cases h : s.isScanning <;> simp_all [scannerStep]

/-- Folding tick/finish-only events preserves the invariant. -/
theorem scannerFold_noManual_inv (es : List ScanEv) (s : ScannerState)
    (hm : ScanEv.manual ∉ es) (hs : s.running = if s.isScanning then 1 else 0) :
    (es.foldl scannerStep s).running
      = if (es.foldl scannerStep s).isScanning then 1 else 0 := by
  induction es generalizing s with
  | nil => exact hs
  | cons e es ih =>
    simp only [List.foldl_cons]
    have hne : e ≠ ScanEv.manual := fun h => hm (h ▸ List.mem_cons_self e es)
    exact ih (scannerStep s e) (fun h => hm (List.mem_cons_of_mem e h))
      (scannerStep_noManual_inv s e hne hs)

/-- Claim C5 (amended): a scheduled tick arriving while a scan is in
progress is dropped silently (the state is unchanged, so it is neither
queued nor run); without manual scan requests no two scan cycles ever run
concurrently; but a manual scan request is never gated — it always starts
another scan, even while one is in flight. -/
theorem scanner_exclusivity_amended :
    (∀ s : ScannerState, s.isScanning = true → scannerStep s ScanEv.tick = s)
    ∧ (∀ es : List ScanEv, ScanEv.manual ∉ es → (scannerRun es).running ≤ 1)
    ∧ (∀ s : ScannerState, (scannerStep s ScanEv.manual).running = s.running + 1) := by
  refine ⟨?_, ?_, ?_⟩
  · intro s hs
    simp [scannerStep, hs]
  · intro es hm
    have h := scannerFold_noManual_inv es ⟨false, 0⟩ hm (by simp)
    unfold scannerRun
    rw [h]
    by_cases hb : (es.foldl scannerStep ⟨false, 0⟩).isScanning <;> simp [hb]
  · intro s
    simp [scannerStep]

/-- Witness for C5 (amended): a tick arriving during a scan leaves the
state unchanged, and a tick/finish-only trace never has two scans in
flight. -/
theorem scanner_exclusivity_amended_witness :
    scannerStep ⟨true, 1⟩ ScanEv.tick = ⟨true, 1⟩
    ∧ (scannerRun [ScanEv.tick, ScanEv.finish, ScanEv.tick]).running ≤ 1 :=
  ⟨scanner_exclusivity_amended.1 ⟨true, 1⟩ rfl,
   scanner_exclusivity_amended.2.1 [ScanEv.tick, ScanEv.finish, ScanEv.tick] (by decide)⟩

/-! ### Claim C6 — reaction handler -/

/-- Get-set law on the emoji hash: reading the written field. -/
theorem hgetE_hsetE_same (h : EmojiHash) (k : EmojiType) (v : Int) :
    hgetE (hsetE h k v) k = some v := by
  cases k <;> rfl

/-- Get-set law on the emoji hash: other fields are untouched. -/
theorem hgetE_hsetE_other (h : EmojiHash) (k k' : EmojiType) (v : Int) (hne : k' ≠ k) :
    hgetE (hsetE h k v) k' = hgetE h k' := by
  cases k <;> cases k' <;> first | rfl | exact absurd rfl hne

/-- Claim C6: the handler reads the previous count `p`, increments the hash
field to `n = p + increment`; if `n < p` it reverts the field to `p` and
publishes nothing; otherwise it publishes exactly one `emojiCountUpdate`
message on `emojiUpdates:<lc(token)>` whose counts carry all five kinds
with absent fields defaulted to 0; and `getCounts` always returns all five
kinds with zero defaults. -/
theorem emojiHandler_spec (h : EmojiHash) (ev : EmojiEvent) :
    ((hgetE h ev.emoji).getD 0 + ev.increment < (hgetE h ev.emoji).getD 0 →
      hgetE (handleEmojiReacted h ev).1 ev.emoji = some ((hgetE h ev.emoji).getD 0)
      ∧ (handleEmojiReacted h ev).2 = [])
    ∧ (¬ (hgetE h ev.emoji).getD 0 + ev.increment < (hgetE h ev.emoji).getD 0 →
      hgetE (handleEmojiReacted h ev).1 ev.emoji
        = some ((hgetE h ev.emoji).getD 0 + ev.increment)
      ∧ (handleEmojiReacted h ev).2.length = 1
      ∧ ∀ m ∈ (handleEmojiReacted h ev).2,
          m.channel = emojiChannel ev.tokenAddress
          ∧ m.previousCount = (hgetE h ev.emoji).getD 0
          ∧ m.newCount = (hgetE h ev.emoji).getD 0 + ev.increment
          ∧ (∀ k, countOf m.counts k
              = (hgetE (hsetE h ev.emoji ((hgetE h ev.emoji).getD 0 + ev.increment)) k).getD 0)
          ∧ (∀ k, hgetE (hsetE h ev.emoji ((hgetE h ev.emoji).getD 0 + ev.increment)) k = none →
              countOf m.counts k = 0))
    ∧ (∀ k, hgetE h k = none → countOf (getCounts h) k = 0)
    ∧ (∀ k v, hgetE h k = some v → countOf (getCounts h) k = v) := by
  have hcounts : ∀ (H : EmojiHash) (k : EmojiType),
      countOf (normalizeCounts H) k = (hgetE H k).getD 0 := by
    intro H k
    cases k <;> rfl
  refine ⟨?_, ?_, ?_, ?_⟩
  · intro hlt
    simp only [handleEmojiReacted, if_pos hlt]
    exact ⟨hgetE_hsetE_same _ _ _, trivial⟩
  · intro hge
    simp only [handleEmojiReacted, if_neg hge]
    refine ⟨hgetE_hsetE_same _ _ _, by simp, ?_⟩
    intro m hm
    simp only [List.mem_singleton] at hm
    subst hm
    refine ⟨rfl, rfl, rfl, fun k => hcounts _ k, fun k hk => ?_⟩
    rw [hcounts _ k, hk]
    rfl
  · intro k hk
    have hc : countOf (getCounts h) k = (hgetE h k).getD 0 := hcounts h k
    rw [hc, hk]
    rfl
  · intro k v hk
    have hc : countOf (getCounts h) k = (hgetE h k).getD 0 := hcounts h k
    rw [hc, hk]
    rfl

/-- Witness for C6: a regressing increment (negative, as only an external
writer could produce) is reverted with nothing published, at a concrete
hash. -/
theorem emojiHandler_spec_witness :
    hgetE (handleEmojiReacted { like := some 3 } ⟨"0xT", EmojiType.like, -5⟩).1 EmojiType.like
      = some 3
    ∧ (handleEmojiReacted { like := some 3 } ⟨"0xT", EmojiType.like, -5⟩).2 = [] :=
  (emojiHandler_spec { like := some 3 } ⟨"0xT", EmojiType.like, -5⟩).1 (by decide)

/-! ### Claim C8 — SSE fan-out -/

/-- Counterexample to C8: two clients stream the same channel; the first
one's disconnect leaves the second connected (the in-process subscriber set
is non-empty) yet releases the external channel subscription, so a
published delta reaches no client at all. -/
theorem sse_unsubscribe_cex :
    (clientClose (streamOpen (streamOpen {} "comments:0xt" 0) "comments:0xt" 1)
        "comments:0xt" 0).clients = [("comments:0xt", 1)]
    ∧ (clientClose (streamOpen (streamOpen {} "comments:0xt" 0) "comments:0xt" 1)
        "comments:0xt" 0).subs = []
    ∧ deliver (clientClose (streamOpen (streamOpen {} "comments:0xt" 0) "comments:0xt" 1)
        "comments:0xt" 0) "comments:0xt" = [] := by
  refine ⟨?_, ?_, ?_⟩ <;> rfl

/-- Claim C8 (amended): all in-process SSE clients of a channel do share
the single subscriber connection's subscription (opening a further client
on an already-subscribed channel adds no external subscription), but there
is no per-channel reference count: any one client's disconnect releases
the channel subscription outright, stopping delta delivery to every
remaining client of that channel. -/
theorem sse_fanout_amended (st : SseSt) (channel : String) (cid : Nat) :
    (st.subs.contains channel = true → (streamOpen st channel cid).subs = st.subs)
    ∧ (clientClose st channel cid).subs.contains channel = false
    ∧ deliver (clientClose st channel cid) channel = [] := by
  refine ⟨?_, ?_, ?_⟩
  · intro h
    have hm : channel ∈ st.subs := by simpa using h
    simp [streamOpen, hm]
  · have hmem : channel ∉ (clientClose st channel cid).subs := by
      simp [clientClose, List.mem_filter]
    simpa using hmem
  · have hmem : channel ∉ (clientClose st channel cid).subs := by
      simp [clientClose, List.mem_filter]
    simp [deliver, hmem]

/-- Witness for C8 (amended) at a concrete state with one subscribed
channel and two clients. -/
theorem sse_fanout_amended_witness :
    (streamOpen ⟨["emojiUpdates:0xt"], [("emojiUpdates:0xt", 0)], [("emojiUpdates:0xt", 0)]⟩
        "emojiUpdates:0xt" 1).subs = ["emojiUpdates:0xt"]
    ∧ deliver (clientClose ⟨["emojiUpdates:0xt"], [("emojiUpdates:0xt", 0)],
        [("emojiUpdates:0xt", 0)]⟩ "emojiUpdates:0xt" 0) "emojiUpdates:0xt" = [] :=
  ⟨(sse_fanout_amended ⟨["emojiUpdates:0xt"], [("emojiUpdates:0xt", 0)],
      [("emojiUpdates:0xt", 0)]⟩ "emojiUpdates:0xt" 1).1 (by decide),
   (sse_fanout_amended ⟨["emojiUpdates:0xt"], [("emojiUpdates:0xt", 0)],
      [("emojiUpdates:0xt", 0)]⟩ "emojiUpdates:0xt" 0).2.2⟩

/-! ### Claim C9 — comment listing limits -/

/-- Counterexample to C9: with the query parameter omitted the effective
limit is 30 (`DefaultValuePipe(30)`), not the 50 the claim states — for
both the REST endpoint and the SSE initial snapshot, which use the same
default. -/
theorem comments_limit_default_cex :
    effectiveLimit none = 30 ∧ effectiveLimit none ≠ 50 := by
  decide

/-- Claim C9 (amended): `GET /comments/:tokenAddress` returns comments
newest-first with the limit clamped into `[1, 100]`, defaulting to 30 when
omitted; the SSE stream's `initialComments` snapshot is computed by the
same `getLatest` with the same clamp and the same default of 30, so it
carries at most 100 comments. -/
theorem comments_limit_amended (cache db : List Comment) (q : Option Int) (l : Int) :
    effectiveLimit none = 30
    ∧ 1 ≤ effectiveLimit q
    ∧ effectiveLimit q ≤ 100
    ∧ (1 ≤ l → l ≤ 100 → effectiveLimit (some l) = l)
    ∧ (getCommentsEndpoint cache db q).length ≤ 100
    ∧ (NewestFirstSorted cache → NewestFirstSorted (getCommentsEndpoint cache db q))
    ∧ streamInitialComments cache db q = getCommentsEndpoint cache db q
    ∧ (streamInitialComments cache db q).length ≤ 100 := by
  have hlow : 1 ≤ effectiveLimit q := by
    cases q with
    | none => decide
    | some l' =>
      simp only [effectiveLimit, Option.getD_some]
      omega
  have hhigh : effectiveLimit q ≤ 100 := by
    cases q with
    | none => decide
    | some l' =>
      simp only [effectiveLimit, Option.getD_some]
      omega
  have hlen : (getCommentsEndpoint cache db q).length ≤ 100 := by
    unfold getCommentsEndpoint getLatest
    by_cases hraw : (cache.take (((max 0 (effectiveLimit q - 1)).toNat) + 1)).isEmpty
    · simp only [hraw, if_pos]
      have := List.length_take ((effectiveLimit q).toNat) (db.mergeSort newestFirst)
      have ht : (effectiveLimit q).toNat ≤ 100 := by omega
      simp only [List.length_take]
      omega
    · simp only [hraw, if_neg, Bool.not_eq_true]
      have := List.length_take (((max 0 (effectiveLimit q - 1)).toNat) + 1) cache
      have ht : ((max 0 (effectiveLimit q - 1)).toNat) + 1 ≤ 100 := by omega
      simp only [List.length_take]
      omega
  refine ⟨by decide, hlow, hhigh, ?_, hlen, ?_, rfl, hlen⟩
  · intro h1 h100
    simp only [effectiveLimit, Option.getD_some]
    omega
  · intro hc
    unfold getCommentsEndpoint getLatest
    by_cases hraw : (cache.take (((max 0 (effectiveLimit q - 1)).toNat) + 1)).isEmpty
    · simp only [hraw, if_pos]
      have hs : (db.mergeSort newestFirst).Pairwise (fun a b => newestFirst a b = true) :=
        List.sorted_mergeSort
          (fun a b c hab hbc => by
            simp only [newestFirst, decide_eq_true_eq] at *
            omega)
          (fun a b => by
            simp only [newestFirst]
            rcases Int.le_total b.createdAt a.createdAt with h | h <;> simp [h])
          db
      exact hs.sublist (List.take_sublist _ _)
    · simp only [hraw, if_neg, Bool.not_eq_true]
      exact hc.sublist (List.take_sublist _ _)

/-- Witness for C9 (amended) at a concrete sorted cache and omitted query
parameter. -/
theorem comments_limit_amended_witness :
    NewestFirstSorted ({ id := "c2", createdAt := 5 } :: [{ id := "c1", createdAt := 3 }])
    ∧ NewestFirstSorted (getCommentsEndpoint
        ({ id := "c2", createdAt := 5 } :: [{ id := "c1", createdAt := 3 }]) [] none) :=
  ⟨by unfold NewestFirstSorted; decide,
   (comments_limit_amended ({ id := "c2", createdAt := 5 } :: [{ id := "c1", createdAt := 3 }])
      [] none 1).2.2.2.2.2.1 (by unfold NewestFirstSorted; decide)⟩

/-! ### Watchlist helper lemmas -/

/-- Evaluating `hasRow` over a one-row append. -/
theorem hasRow_append_one (rows : List WRow) (r' : WRow) (uid : Nat) (a : String) :
    hasRow (rows ++ [r']) uid a
      = (hasRow rows uid a || (r'.userId == uid && r'.tokenAddress == a)) := by
  simp [hasRow, List.any_append]

/-- Rows already present survive `createMany` with skip-duplicates. -/
theorem hasRow_createManySkipDup_mono (addrs : List String) (rows : List WRow)
    (uid : Nat) (a : String) (h : hasRow rows uid a = true) :
    hasRow (createManySkipDup rows uid addrs) uid a = true := by
  induction addrs generalizing rows with
  | nil => exact h
  | cons b bs ih =>
    show hasRow
      (createManySkipDup (if hasRow rows uid b then rows else rows ++ [⟨uid, b⟩]) uid bs)
      uid a = true
    by_cases hb : hasRow rows uid b = true
    · rw [if_pos hb]
      exact ih rows h
    · rw [if_neg hb]
      apply ih
      rw [hasRow_append_one]
      simp [h]

/-- Every listed address has a row after `createMany` with skip-duplicates. -/
theorem hasRow_createManySkipDup_mem (addrs : List String) (rows : List WRow)
    (uid : Nat) (a : String) (ha : a ∈ addrs) :
    hasRow (createManySkipDup rows uid addrs) uid a = true := by
  induction addrs generalizing rows with
  | nil => cases ha
  | cons b bs ih =>
    show hasRow
      (createManySkipDup (if hasRow rows uid b then rows else rows ++ [⟨uid, b⟩]) uid bs)
      uid a = true
    rcases List.mem_cons.mp ha with rfl | hmem
    · by_cases hb : hasRow rows uid a = true
      · rw [if_pos hb]
        exact hasRow_createManySkipDup_mono bs rows uid a hb
      · rw [if_neg hb]
        apply hasRow_createManySkipDup_mono
        rw [hasRow_append_one]
        simp
    · by_cases hb : hasRow rows uid b = true
      · rw [if_pos hb]
        exact ih rows hmem
      · rw [if_neg hb]
        exact ih _ hmem

/-- Membership in the `existingItems` projection implies a matching row. -/
theorem hasRow_of_existing_contains (rows : List WRow) (uid : Nat) (ts : List String)
    (a : String)
    (hc : ((rows.filter (fun r => r.userId == uid && ts.contains r.tokenAddress)).map
        (fun r => r.tokenAddress)).contains a = true) :
    hasRow rows uid a = true := by
  simp only [List.contains_eq_any_beq, List.any_eq_true, List.mem_map, List.mem_filter,
    Bool.and_eq_true, beq_iff_eq] at hc
  obtain ⟨x, ⟨r, ⟨hrmem, hruid, _⟩, hrx⟩, hax⟩ := hc
  simp only [hasRow, List.any_eq_true]
  exact ⟨r, hrmem, by simp [hruid, hrx ▸ hax.symm]⟩

/-- A matching row for a queried address lands in the `existingItems`
projection. -/
theorem existing_contains_of_hasRow (rows : List WRow) (uid : Nat) (ts : List String)
    (a : String) (ha : a ∈ ts) (hr : hasRow rows uid a = true) :
    ((rows.filter (fun r => r.userId == uid && ts.contains r.tokenAddress)).map
        (fun r => r.tokenAddress)).contains a = true := by
  simp only [hasRow, List.any_eq_true, Bool.and_eq_true, beq_iff_eq] at hr
  obtain ⟨r, hrmem, hruid, hra⟩ := hr
  simp only [List.contains_eq_any_beq, List.any_eq_true, List.mem_map, List.mem_filter,
    Bool.and_eq_true, beq_iff_eq]
  refine ⟨a, ⟨r, ⟨hrmem, hruid, ?_⟩, hra⟩, rfl⟩
  simp [hra, ha]

/-- After an upsert, looking up the wallet finds exactly the upserted user. -/
theorem upsertUser_find (st : WatchSt) (w : String) :
    (upsertUser st w).1.users.find? (fun x => x.walletAddress == w)
      = some (upsertUser st w).2 := by
  unfold upsertUser
  rcases hf : st.users.find? (fun x => x.walletAddress == w) with _ | u
  · simp [hf, List.find?_append]
  · simp [hf]

/-- Shape of `addToWatchlist`: the user table and id counter come from the
upsert alone, and afterwards every (lower-cased) requested address has a
row for the upserted user. -/
theorem addToWatchlist_shape (st : WatchSt) (wallet : String) (tokens : List String) :
    (addToWatchlist st wallet tokens).1.users = (upsertUser st (strToLower wallet)).1.users
    ∧ (addToWatchlist st wallet tokens).1.nextId = (upsertUser st (strToLower wallet)).1.nextId
    ∧ (∀ a ∈ tokens.map strToLower,
        hasRow (addToWatchlist st wallet tokens).1.rows
          (upsertUser st (strToLower wallet)).2.id a = true) := by
  simp only [addToWatchlist]
  split
  · next hempty =>
    refine ⟨rfl, rfl, ?_⟩
    intro a ha
    rw [List.isEmpty_iff] at hempty
    rw [List.filter_eq_nil_iff] at hempty
    have hc := hempty a ha
    simp only [Bool.not_eq_true', Bool.not_eq_false] at hc
    exact hasRow_of_existing_contains _ _ _ _ hc
  · next hempty =>
    refine ⟨rfl, rfl, ?_⟩
    intro a ha
    by_cases hc :
      (((upsertUser st (strToLower wallet)).1.rows.filter
          (fun r => r.userId == (upsertUser st (strToLower wallet)).2.id
            && (tokens.map strToLower).contains r.tokenAddress)).map
          (fun r => r.tokenAddress)).contains a = true
    · exact hasRow_createManySkipDup_mono _ _ _ _ (hasRow_of_existing_contains _ _ _ _ hc)
    · apply hasRow_createManySkipDup_mem
      rw [List.mem_filter]
      have hc' := Bool.eq_false_iff.mpr hc
      exact ⟨ha, by rw [hc']; rfl⟩

/-- A call whose every requested address is already watched returns
`addedCount = 0` and leaves the whole state unchanged. -/
theorem addToWatchlist_noNew (st : WatchSt) (wallet : String) (tokens : List String)
    (u : WUser)
    (hu : st.users.find? (fun x => x.walletAddress == (strToLower wallet)) = some u)
    (hall : ∀ a ∈ tokens.map strToLower, hasRow st.rows u.id a = true) :
    addToWatchlist st wallet tokens = (st, 0) := by
  have hnil : (tokens.map strToLower).filter
      (fun a => !((st.rows.filter (fun r => r.userId == u.id
        && (tokens.map strToLower).contains r.tokenAddress)).map
        (fun r => r.tokenAddress)).contains a) = [] := by
    rw [List.filter_eq_nil_iff]
    intro a ha
    simp only [Bool.not_eq_true', Bool.not_eq_false]
    exact existing_contains_of_hasRow _ _ _ _ ha (hall a ha)
  simp only [addToWatchlist, upsertUser, hu, hnil, List.isEmpty_nil, if_true]

/-! ### Claim C7 — watchlist add idempotence -/

/-- Claim C7: running `add(w, T)` twice in a row returns `addedCount = 0`
from the second call and leaves the entire observable state — watchlist
rows, cache sets, published events, user table — unchanged, so `list(w)`
is unchanged and no insert, cache update or event occurs. -/
theorem watchlist_add_idem (st : WatchSt) (wallet : String) (tokens : List String) :
    addToWatchlist (addToWatchlist st wallet tokens).1 wallet tokens
      = ((addToWatchlist st wallet tokens).1, 0) := by
  obtain ⟨husers, _, hall⟩ := addToWatchlist_shape st wallet tokens
  have hfind : (addToWatchlist st wallet tokens).1.users.find?
      (fun x => x.walletAddress == (strToLower wallet))
      = some (upsertUser st (strToLower wallet)).2 := by
    rw [husers]
    exact upsertUser_find st (strToLower wallet)
  exact addToWatchlist_noNew _ wallet tokens _ hfind hall

/-! ### Claim C10 — duplicate occurrences in addToWatchlist -/

/-- Count of a matching row never grows once present (skip-duplicates). -/
theorem countRows_append_one (rows : List WRow) (r' : WRow) (uid : Nat) (a : String) :
    countRows (rows ++ [r']) uid a
      = countRows rows uid a
        + (if (r'.userId == uid && r'.tokenAddress == a) = true then 1 else 0) := by
  simp only [countRows, List.filter_append, List.length_append]
  split_ifs with h <;> simp [List.filter, h]

/-- Absent rows have count zero. -/
theorem countRows_zero_of_not_hasRow (rows : List WRow) (uid : Nat) (a : String)
    (h : hasRow rows uid a = false) : countRows rows uid a = 0 := by
  simp only [countRows, List.length_eq_zero, List.filter_eq_nil_iff]
  intro r hr hp
  have hrow : hasRow rows uid a = true := by
    simp only [hasRow, List.any_eq_true]
    exact ⟨r, hr, hp⟩
  simp [h] at hrow

/-- Once a matching row exists, `createMany` with skip-duplicates leaves
its count unchanged. -/
theorem countRows_createManySkipDup_stable (addrs : List String) (rows : List WRow)
    (uid : Nat) (a : String) (h : hasRow rows uid a = true) :
    countRows (createManySkipDup rows uid addrs) uid a = countRows rows uid a := by
  induction addrs generalizing rows with
  | nil => rfl
  | cons b bs ih =>
    show countRows
      (createManySkipDup (if hasRow rows uid b then rows else rows ++ [⟨uid, b⟩]) uid bs)
      uid a = countRows rows uid a
    by_cases hb : hasRow rows uid b = true
    · rw [if_pos hb]
      exact ih rows h
    · rw [if_neg hb]
      have hba : ¬ b = a := by
        intro hba
        subst hba
        exact hb h
      have hcount : countRows (rows ++ [⟨uid, b⟩]) uid a = countRows rows uid a := by
        rw [countRows_append_one]
        simp [hba]
      have hr' : hasRow (rows ++ [⟨uid, b⟩]) uid a = true := by
        rw [hasRow_append_one]
        simp [h]
      rw [ih _ hr', hcount]

/-- A not-yet-present address listed in the batch ends with exactly one
row after `createMany` with skip-duplicates, however often it occurs. -/
theorem countRows_createManySkipDup_one (addrs : List String) (rows : List WRow)
    (uid : Nat) (a : String) (hnot : hasRow rows uid a = false) (ha : a ∈ addrs) :
    countRows (createManySkipDup rows uid addrs) uid a = 1 := by
  induction addrs generalizing rows with
  | nil => cases ha
  | cons b bs ih =>
    show countRows
      (createManySkipDup (if hasRow rows uid b then rows else rows ++ [⟨uid, b⟩]) uid bs)
      uid a = 1
    rcases List.mem_cons.mp ha with rfl | hmem
    · rw [if_neg (by simp [hnot])]
      have hrow : hasRow (rows ++ [⟨uid, a⟩]) uid a = true := by
        rw [hasRow_append_one]
        simp
      rw [countRows_createManySkipDup_stable bs _ uid a hrow, countRows_append_one,
        countRows_zero_of_not_hasRow rows uid a hnot]
      simp
    · by_cases hb : hasRow rows uid b = true
      · rw [if_pos hb]
        exact ih rows hnot hmem
      · rw [if_neg hb]
        by_cases hba : b = a
        · subst hba
          have hrow : hasRow (rows ++ [⟨uid, b⟩]) uid b = true := by
            rw [hasRow_append_one]
            simp
          rw [countRows_createManySkipDup_stable bs _ uid b hrow, countRows_append_one,
            countRows_zero_of_not_hasRow rows uid b hnot]
          simp
        · apply ih
          · rw [hasRow_append_one]
            simp [hnot, hba]
          · exact hmem

/-- Claim C10: when the request's token list contains the same address
more than once (case-insensitively) and that address is not already
watched, `addToWatchlist` inserts exactly one row for it (skip-duplicates)
yet the returned `addedCount` counts every occurrence — so `addedCount`
(at least the occurrence count, hence at least 2) exceeds the single entry
actually added. -/
theorem addedCount_duplicates_spec (st : WatchSt) (wallet : String) (tokens : List String)
    (b : String)
    (hdup : 2 ≤ (tokens.map strToLower).count b)
    (hnot : hasRow (upsertUser st (strToLower wallet)).1.rows
      (upsertUser st (strToLower wallet)).2.id b = false) :
    (tokens.map strToLower).count b ≤ (addToWatchlist st wallet tokens).2
    ∧ 2 ≤ (addToWatchlist st wallet tokens).2
    ∧ countRows (addToWatchlist st wallet tokens).1.rows
        (upsertUser st (strToLower wallet)).2.id b = 1 := by
  have hbe : ((((upsertUser st (strToLower wallet)).1.rows.filter
      (fun r => r.userId == (upsertUser st (strToLower wallet)).2.id
        && (tokens.map strToLower).contains r.tokenAddress)).map
      (fun r => r.tokenAddress)).contains b) = false := by
    rcases hb : ((((upsertUser st (strToLower wallet)).1.rows.filter
        (fun r => r.userId == (upsertUser st (strToLower wallet)).2.id
          && (tokens.map strToLower).contains r.tokenAddress)).map
        (fun r => r.tokenAddress)).contains b) with _ | _
    · exact hb
    · have := hasRow_of_existing_contains _ _ _ _ hb
      simp [hnot] at this
  have hcnt : ((tokens.map strToLower).filter
      (fun a => !(((upsertUser st (strToLower wallet)).1.rows.filter
        (fun r => r.userId == (upsertUser st (strToLower wallet)).2.id
          && (tokens.map strToLower).contains r.tokenAddress)).map
        (fun r => r.tokenAddress)).contains a)).count b
      = (tokens.map strToLower).count b := by
    apply List.count_filter
    rw [hbe]
    rfl
  have hmemb : b ∈ (tokens.map strToLower).filter
      (fun a => !(((upsertUser st (strToLower wallet)).1.rows.filter
        (fun r => r.userId == (upsertUser st (strToLower wallet)).2.id
          && (tokens.map strToLower).contains r.tokenAddress)).map
        (fun r => r.tokenAddress)).contains a) := by
    rw [← List.count_pos_iff, hcnt]
    omega
  have hlen : ((tokens.map strToLower).filter
      (fun a => !(((upsertUser st (strToLower wallet)).1.rows.filter
        (fun r => r.userId == (upsertUser st (strToLower wallet)).2.id
          && (tokens.map strToLower).contains r.tokenAddress)).map
        (fun r => r.tokenAddress)).contains a)).count b
      ≤ ((tokens.map strToLower).filter
      (fun a => !(((upsertUser st (strToLower wallet)).1.rows.filter
        (fun r => r.userId == (upsertUser st (strToLower wallet)).2.id
          && (tokens.map strToLower).contains r.tokenAddress)).map
        (fun r => r.tokenAddress)).contains a)).length :=
    List.count_le_length _ _
  have hne : ((tokens.map strToLower).filter
      (fun a => !(((upsertUser st (strToLower wallet)).1.rows.filter
        (fun r => r.userId == (upsertUser st (strToLower wallet)).2.id
          && (tokens.map strToLower).contains r.tokenAddress)).map
        (fun r => r.tokenAddress)).contains a)).isEmpty = false := by
    rw [List.isEmpty_eq_false]
    intro hnil
    rw [hnil] at hmemb
    cases hmemb
  simp only [addToWatchlist, hne, Bool.false_eq_true, if_false]
  refine ⟨by omega, by omega, ?_⟩
  exact countRows_createManySkipDup_one _ _ _ _ hnot hmemb

/-- Witness for C10: the same address twice, differing only in case, not
yet watched — the call reports `addedCount = 2` but stores one row. -/
theorem addedCount_duplicates_spec_witness :
    2 ≤ (addToWatchlist {} "0xW" ["0xAA", "0xaa"]).2
    ∧ countRows (addToWatchlist {} "0xW" ["0xAA", "0xaa"]).1.rows
        (upsertUser {} (strToLower "0xW")).2.id "0xaa" = 1 :=
  ⟨(addedCount_duplicates_spec {} "0xW" ["0xAA", "0xaa"] "0xaa" (by decide) (by decide)).2.1,
   (addedCount_duplicates_spec {} "0xW" ["0xAA", "0xaa"] "0xaa" (by decide) (by decide)).2.2⟩

/-! ### Token repository merge lemmas -/

/-- Replacing an absent key is the identity. -/
theorem replace_eq_self (m : List (String × TokenMetadata)) (k : String) (v : TokenMetadata)
    (hk : m.any (fun p => p.1 == k) = false) :
    m.map (fun p => if p.1 == k then (k, v) else p) = m := by
  induction m with
  | nil => rfl
  | cons x m ih =>
    simp only [List.any_cons, Bool.or_eq_false_iff] at hk
    simp only [List.map_cons, hk.1, Bool.false_eq_true, if_false, ih hk.2]

/-- Behavior of `find?` over the key-replacement map when the key is present. -/
theorem find?_replace (m : List (String × TokenMetadata)) (k : String) (v : TokenMetadata)
    (a : String) (hk : m.any (fun p => p.1 == k) = true) :
    (m.map (fun p => if p.1 == k then (k, v) else p)).find? (fun p => p.1 == a)
      = if a == k then some (k, v) else m.find? (fun p => p.1 == a) := by
  induction m with
  | nil => cases hk
  | cons x m ih =>
    by_cases hx : x.1 = k
    · have hmap : (x :: m).map (fun p => if p.1 == k then (k, v) else p)
          = (k, v) :: m.map (fun p => if p.1 == k then (k, v) else p) := by
        simp [hx]
      rw [hmap]
      by_cases hak : a = k
      · subst hak
        rw [List.find?_cons_of_pos _ (by simp), if_pos (by simp)]
      · rw [List.find?_cons_of_neg _ (by simp [Ne.symm hak]), if_neg (by simp [hak]),
          List.find?_cons_of_neg _ (by simp [hx, Ne.symm hak])]
        by_cases hm : m.any (fun p => p.1 == k) = true
        · rw [ih hm, if_neg (by simp [hak])]
        · rw [replace_eq_self m k v (Bool.eq_false_iff.mpr hm)]
    · have hk' : m.any (fun p => p.1 == k) = true := by
        rcases List.any_eq_true.mp hk with ⟨p, hp, hpk⟩
        rcases List.mem_cons.mp hp with rfl | hpm
        · exact absurd (by simpa using hpk) hx
        · exact List.any_eq_true.mpr ⟨p, hpm, hpk⟩
      have hmap : (x :: m).map (fun p => if p.1 == k then (k, v) else p)
          = x :: m.map (fun p => if p.1 == k then (k, v) else p) := by
        simp [hx]
      rw [hmap]
      by_cases hxa : x.1 = a
      · have hak : ¬ a = k := fun h => hx (by rw [hxa, h])
        rw [List.find?_cons_of_pos _ (by simp [hxa]), if_neg (by simp [hak]),
          List.find?_cons_of_pos _ (by simp [hxa])]
      · rw [List.find?_cons_of_neg _ (by simp [hxa]), ih hk']
        by_cases hak : a = k
        · rw [if_pos (by simp [hak]), if_pos (by simp [hak])]
        · rw [if_neg (by simp [hak]), if_neg (by simp [hak]),
            List.find?_cons_of_neg _ (by simp [hxa])]

/-- Lookup after a `Map#set` step: the written key reads back the new
value, all other keys are untouched. -/
theorem lookupA_mapSet (m : List (String × TokenMetadata)) (k : String) (v : TokenMetadata)
    (a : String) :
    lookupA (mapSet m k v) a = if a == k then some v else lookupA m a := by
  unfold mapSet lookupA
  by_cases hk : m.any (fun p => p.1 == k) = true
  · rw [if_pos hk, find?_replace m k v a hk]
    by_cases hak : a = k <;> simp [hak]
  · rw [if_neg hk, List.find?_append]
    have hnone : m.find? (fun p => p.1 == k) = none := by
      rw [List.find?_eq_none]
      intro p hp
      simp only [List.any_eq_true] at hk
      push_neg at hk
      simpa using hk p hp
    by_cases hak : a = k
    · subst hak
      rw [hnone, List.find?_cons_of_pos _ (by simp)]
      simp
    · rw [List.find?_cons_of_neg _ (by simp [Ne.symm hak]), List.find?_nil, if_neg (by simp [hak])]
      cases hm : m.find? fun p => p.1 == a <;> simp [Option.or]

/-- A Map set step keeps existing keys in place and appends a fresh key. -/
theorem keys_mapSet (m : List (String × TokenMetadata)) (k : String) (v : TokenMetadata) :
    (mapSet m k v).map Prod.fst
      = if m.any (fun p => p.1 == k) = true then m.map Prod.fst
        else m.map Prod.fst ++ [k] := by
  unfold mapSet
  by_cases hk : m.any (fun p => p.1 == k) = true
  · rw [if_pos hk, if_pos hk, List.map_map]
    apply List.map_congr_left
    intro p _
    by_cases hp : p.1 = k <;> simp [hp]
  · rw [if_neg hk, if_neg hk]
    simp

/-- A Map set step preserves key uniqueness. -/
theorem nodup_keys_mapSet (m : List (String × TokenMetadata)) (k : String) (v : TokenMetadata)
    (h : (m.map Prod.fst).Nodup) : ((mapSet m k v).map Prod.fst).Nodup := by
  rw [keys_mapSet]
  by_cases hk : m.any (fun p => p.1 == k) = true
  · rwa [if_pos hk]
  · rw [if_neg hk]
    have hkmem : k ∉ m.map Prod.fst := by
      simp only [List.any_eq_true] at hk
      push_neg at hk
      intro hmem
      obtain ⟨p, hp, hpk⟩ := List.mem_map.mp hmem
      exact absurd (by simpa using hpk) (by simpa using hk p hp)
    rw [List.nodup_append]
    refine ⟨h, List.nodup_singleton _, ?_⟩
    intro x hx hk'
    simp only [List.mem_singleton] at hk'
    exact hkmem (hk' ▸ hx)

/-- Every entry after a `Map#set` step is an old entry or the written one. -/
theorem mem_mapSet (m : List (String × TokenMetadata)) (k : String) (v : TokenMetadata)
    (p : String × TokenMetadata) (hp : p ∈ mapSet m k v) : p ∈ m ∨ p = (k, v) := by
  unfold mapSet at hp
  by_cases hk : m.any (fun p => p.1 == k) = true
  · rw [if_pos hk] at hp
    obtain ⟨q, hq, hqe⟩ := List.mem_map.mp hp
    by_cases hqk : q.1 = k
    · right
      rw [← hqe]
      simp [hqk]
    · left
      rw [← hqe]
      simpa [hqk] using hq
  · rw [if_neg hk] at hp
    rcases List.mem_append.mp hp with h | h
    · exact Or.inl h
    · exact Or.inr (by simpa using h)

/-- A Map set step preserves the address-key consistency invariant. -/
theorem good_mapSet (m : List (String × TokenMetadata)) (k : String) (v : TokenMetadata)
    (hm : ∀ p ∈ m, p.2.address = some p.1 ∧ ¬ p.1 = "")
    (hv : v.address = some k) (hk : ¬ k = "") :
    ∀ p ∈ mapSet m k v, p.2.address = some p.1 ∧ ¬ p.1 = "" := by
  intro p hp
  rcases mem_mapSet m k v p hp with h | h
  · exact hm p h
  · subst h
    exact ⟨hv, hk⟩

/-- A record without a truthy address is skipped. -/
theorem indexStep_none (m : List (String × TokenMetadata)) (t : TokenMetadata)
    (ht : t.address = none) : indexStep m t = m := by
  unfold indexStep
  rw [ht]

/-- A record with an empty address is skipped. -/
theorem indexStep_empty (m : List (String × TokenMetadata)) (t : TokenMetadata)
    (ht : t.address = some "") : indexStep m t = m := by
  unfold indexStep
  rw [ht]
  rfl

/-- A record with a truthy address is set under its address key. -/
theorem indexStep_set (m : List (String × TokenMetadata)) (t : TokenMetadata) (b : String)
    (ht : t.address = some b) (hb : ¬ b = "") : indexStep m t = mapSet m b t := by
  unfold indexStep
  rw [ht]
  show (if (b == "") = true then m else mapSet m b t) = mapSet m b t
  rw [if_neg (by simp [hb])]

/-- Unfolding `indexTokens` over a head record. -/
theorem indexTokens_cons (m : List (String × TokenMetadata)) (t : TokenMetadata)
    (ts : List TokenMetadata) :
    indexTokens m (t :: ts) = indexTokens (indexStep m t) ts := rfl

/-- Lookup after indexing a batch: the newest matching record of the batch
wins, otherwise the previous map answers. -/
theorem lookupA_indexTokens (ts : List TokenMetadata) (m : List (String × TokenMetadata))
    (a : String) :
    lookupA (indexTokens m ts) a = (lastMatch a ts).or (lookupA m a) := by
  induction ts generalizing m with
  | nil => simp [indexTokens, lastMatch, Option.or]
  | cons t ts ih =>
    rw [indexTokens_cons, ih]
    cases hl : lastMatch a ts with
    | some u =>
      have hcons : lastMatch a (t :: ts) = some u := by
        show (match lastMatch a ts with
          | some u' => some u'
          | none => if truthyMatch t a then some t else none) = some u
        rw [hl]
      rw [hcons]
      rfl
    | none =>
      have hcons : lastMatch a (t :: ts) = if truthyMatch t a then some t else none := by
        show (match lastMatch a ts with
          | some u' => some u'
          | none => if truthyMatch t a then some t else none)
          = if truthyMatch t a then some t else none
        rw [hl]
      rw [hcons]
      rcases ht : t.address with _ | b
      · rw [indexStep_none m t ht]
        simp [truthyMatch, ht, Option.or]
      · by_cases hb : b = ""
        · subst hb
          rw [indexStep_empty m t ht]
          simp [truthyMatch, ht, Option.or]
        · rw [indexStep_set m t b ht hb, lookupA_mapSet]
          by_cases hab : a = b
          · subst hab
            simp [truthyMatch, ht, hb, Option.or]
          · have hba : ¬ b = a := fun h => hab h.symm
            simp [truthyMatch, ht, hb, hab, hba, Option.or]

/-- Indexing preserves key uniqueness. -/
theorem nodup_keys_indexTokens (ts : List TokenMetadata) (m : List (String × TokenMetadata))
    (h : (m.map Prod.fst).Nodup) : ((indexTokens m ts).map Prod.fst).Nodup := by
  induction ts generalizing m with
  | nil => exact h
  | cons t ts ih =>
    rw [indexTokens_cons]
    apply ih
    rcases ht : t.address with _ | b
    · rw [indexStep_none m t ht]
      exact h
    · by_cases hb : b = ""
      · subst hb
        rw [indexStep_empty m t ht]
        exact h
      · rw [indexStep_set m t b ht hb]
        exact nodup_keys_mapSet m b t h

/-- Every entry of the indexed map comes from the previous map or from the
batch of records. -/
theorem mem_indexTokens (ts : List TokenMetadata) (m : List (String × TokenMetadata))
    (p : String × TokenMetadata) (hp : p ∈ indexTokens m ts) : p ∈ m ∨ p.2 ∈ ts := by
  induction ts generalizing m with
  | nil => exact Or.inl hp
  | cons t ts ih =>
    rw [indexTokens_cons] at hp
    rcases ih _ hp with h | h
    · rcases ht : t.address with _ | b
      · rw [indexStep_none m t ht] at h
        exact Or.inl h
      · by_cases hb : b = ""
        · subst hb
          rw [indexStep_empty m t ht] at h
          exact Or.inl h
        · rw [indexStep_set m t b ht hb] at h
          rcases mem_mapSet m b t p h with h' | h'
          · exact Or.inl h'
          · right
            rw [h']
            exact List.mem_cons_self _ _
    · exact Or.inr (List.mem_cons_of_mem _ h)

/-- Indexing preserves the address-key consistency invariant. -/
theorem good_indexTokens (ts : List TokenMetadata) (m : List (String × TokenMetadata))
    (hm : ∀ p ∈ m, p.2.address = some p.1 ∧ ¬ p.1 = "") :
    ∀ p ∈ indexTokens m ts, p.2.address = some p.1 ∧ ¬ p.1 = "" := by
  induction ts generalizing m with
  | nil => exact hm
  | cons t ts ih =>
    rw [indexTokens_cons]
    apply ih
    rcases ht : t.address with _ | b
    · rw [indexStep_none m t ht]
      exact hm
    · by_cases hb : b = ""
      · subst hb
        rw [indexStep_empty m t ht]
        exact hm
      · rw [indexStep_set m t b ht hb]
        exact good_mapSet m b t hm ht hb

/-- A successful lookup exhibits its entry. -/
theorem lookupA_eq_some (m : List (String × TokenMetadata)) (a : String) (v : TokenMetadata)
    (h : lookupA m a = some v) : (a, v) ∈ m := by
  unfold lookupA at h
  rcases hf : m.find? (fun p => p.1 == a) with _ | p
  · rw [hf] at h
    cases h
  · rw [hf] at h
    have hv : p.2 = v := by
      simpa using h
    have hmem := List.mem_of_find?_eq_some hf
    have hpred := List.find?_some hf
    have hpa : p.1 = a := by simpa using hpred
    have : p = (a, v) := by
      cases p
      simp_all
    rw [← this]
    exact hmem

/-- With unique keys, every entry is what lookup answers for its key. -/
theorem lookupA_of_mem_nodup (m : List (String × TokenMetadata))
    (p : String × TokenMetadata) (hn : (m.map Prod.fst).Nodup) (hp : p ∈ m) :
    lookupA m p.1 = some p.2 := by
  induction m with
  | nil => cases hp
  | cons x m ih =>
    rw [List.map_cons, List.nodup_cons] at hn
    have hcons := hn
    rcases List.mem_cons.mp hp with rfl | hpm
    · unfold lookupA
      rw [List.find?_cons_of_pos _ (by simp)]
      rfl
    · have hx : ¬ x.1 = p.1 := by
        intro h
        exact hcons.1 (h ▸ List.mem_map.mpr ⟨p, hpm, rfl⟩)
      unfold lookupA
      rw [List.find?_cons_of_neg _ (by simp [hx])]
      exact ih hcons.2 hpm

/-- A batch with no record matching `a` has no newest record at `a`. -/
theorem lastMatch_eq_none (a : String) (ts : List TokenMetadata)
    (h : ∀ x ∈ ts, truthyMatch x a = false) : lastMatch a ts = none := by
  induction ts with
  | nil => rfl
  | cons t ts ih =>
    show (match lastMatch a ts with
      | some u => some u
      | none => if truthyMatch t a then some t else none) = none
    rw [ih (fun x hx => h x (List.mem_cons_of_mem _ hx))]
    rw [h t (List.mem_cons_self _ _)]
    rfl

/-- In a list with pairwise-distinct addresses, the newest record at a
member's address is that member. -/
theorem lastMatch_of_mem_nodup (e : List TokenMetadata) (t : TokenMetadata) (a : String)
    (hn : (e.map TokenMetadata.address).Nodup) (ht : t ∈ e)
    (ha : t.address = some a) (hne : ¬ a = "") :
    lastMatch a e = some t := by
  induction e with
  | nil => cases ht
  | cons u es ih =>
    rw [List.map_cons, List.nodup_cons] at hn
    have hcons := hn
    rcases List.mem_cons.mp ht with rfl | hmem
    · have hnone : lastMatch a es = none := by
        apply lastMatch_eq_none
        intro x hx
        rcases hax : x.address with _ | b
        · simp [truthyMatch, hax]
        · by_cases hb : b = ""
          · simp [truthyMatch, hax, hb]
          · have hba : ¬ b = a := by
              intro hba
              subst hba
              have h1 : some b ∈ es.map TokenMetadata.address :=
                List.mem_map.mpr ⟨x, hx, hax⟩
              exact hcons.1 (ha ▸ h1)
            simp [truthyMatch, hax, hb, hba]
      show (match lastMatch a es with
        | some u' => some u'
        | none => if truthyMatch t a then some t else none) = some t
      rw [hnone]
      simp [truthyMatch, ha, hne]
    · show (match lastMatch a es with
        | some u' => some u'
        | none => if truthyMatch u a then some u else none) = some t
      rw [ih hcons.2 hmem]

/-- The merged association map answers lookups with the newest new record,
falling back to the newest existing one. -/
theorem mergeTokens_lookup (e n : List TokenMetadata) (a : String) :
    lookupA (indexTokens (indexTokens [] e) n) a = (lastMatch a n).or (lastMatch a e) := by
  rw [lookupA_indexTokens, lookupA_indexTokens]
  have hnil : lookupA [] a = none := rfl
  rw [hnil]
  cases lastMatch a e <;> cases lastMatch a n <;> rfl

/-- The merged records carry pairwise distinct addresses. -/
theorem mergeTokens_nodup_addresses (e n : List TokenMetadata) :
    ((mergeTokens e n).map TokenMetadata.address).Nodup := by
  have hgood := good_indexTokens n (indexTokens [] e)
    (good_indexTokens e [] (fun p hp => absurd hp (List.not_mem_nil p)))
  have hnodup := nodup_keys_indexTokens n (indexTokens [] e)
    (nodup_keys_indexTokens e [] (by simp))
  unfold mergeTokens
  rw [List.map_map]
  have hrw : (indexTokens (indexTokens [] e) n).map (TokenMetadata.address ∘ fun p => p.2)
      = ((indexTokens (indexTokens [] e) n).map Prod.fst).map some := by
    rw [List.map_map]
    apply List.map_congr_left
    intro p hp
    exact (hgood p hp).1
  rw [hrw]
  exact hnodup.map (Option.some_injective String)

/-- Newest wins: the newest new record at an address is the stored one,
and the only stored one at that address. -/
theorem mergeTokens_newest (e n : List TokenMetadata) (a : String) (t : TokenMetadata)
    (h : lastMatch a n = some t) :
    t ∈ mergeTokens e n
    ∧ ∀ v ∈ mergeTokens e n, v.address = some a → v = t := by
  have hl : lookupA (indexTokens (indexTokens [] e) n) a = some t := by
    rw [mergeTokens_lookup, h]
    rfl
  constructor
  · exact List.mem_map.mpr ⟨(a, t), lookupA_eq_some _ _ _ hl, rfl⟩
  · intro v hv hva
    obtain ⟨p, hp, hpv⟩ := List.mem_map.mp hv
    have hgood := good_indexTokens n (indexTokens [] e)
      (good_indexTokens e [] (fun q hq => absurd hq (List.not_mem_nil q)))
    have hnodup := nodup_keys_indexTokens n (indexTokens [] e)
      (nodup_keys_indexTokens e [] (by simp))
    have hpa : p.1 = a := by
      have h1 := (hgood p hp).1
      rw [hpv, hva] at h1
      exact (Option.some_injective String h1).symm
    have h2 := lookupA_of_mem_nodup _ p hnodup hp
    rw [hpa, hl] at h2
    rw [← hpv]
    exact (Option.some_injective TokenMetadata h2.symm)

/-- Existing records whose address has no new record persist in the merge. -/
theorem mergeTokens_preserve (e n : List TokenMetadata) (t : TokenMetadata) (a : String)
    (hn : (e.map TokenMetadata.address).Nodup) (ht : t ∈ e) (ha : t.address = some a)
    (hne : ¬ a = "") (hnone : lastMatch a n = none) :
    t ∈ mergeTokens e n := by
  have he := lastMatch_of_mem_nodup e t a hn ht ha hne
  have hl : lookupA (indexTokens (indexTokens [] e) n) a = some t := by
    rw [mergeTokens_lookup, hnone, he]
    rfl
  exact List.mem_map.mpr ⟨(a, t), lookupA_eq_some _ _ _ hl, rfl⟩

/-- Every merged record is an existing or a new record. -/
theorem mergeTokens_origin (e n : List TokenMetadata) (r : TokenMetadata)
    (hr : r ∈ mergeTokens e n) : r ∈ e ∨ r ∈ n := by
  obtain ⟨p, hp, hpr⟩ := List.mem_map.mp hr
  rcases mem_indexTokens n _ p hp with h | h
  · rcases mem_indexTokens e [] p h with h' | h'
    · exact absurd h' (List.not_mem_nil p)
    · left
      rw [← hpr]
      exact h'
  · right
    rw [← hpr]
    exact h

/-! ### Claim C2 — token repository store -/

/-- Claim C2: a `storeTokens` call, on existing partitions satisfying the
repository invariant (records typed like their partition), produces
partitions where (a) each partition holds at most one record per address,
(b) for every address occurring among the new records the stored record is
the newest new one, (c) existing records whose address is absent from the
new records are preserved (given the per-partition address uniqueness the
repository maintains), and (d) every stored record lies in exactly one of
the two partitions, the one matching its `appType`. -/
theorem storeTokens_partition_spec (existingZora existingTba : Option TokensData)
    (ts : List TokenMetadata) (stamp : String)
    (hez : ∀ r ∈ (existingZora.map TokensData.tokens).getD [], r.appType = some "ZORA")
    (het : ∀ r ∈ (existingTba.map TokensData.tokens).getD [], r.appType = some "TBA") :
    (((storeTokens existingZora existingTba ts stamp).1.tokens.map
        TokenMetadata.address).Nodup
      ∧ ((storeTokens existingZora existingTba ts stamp).2.tokens.map
        TokenMetadata.address).Nodup)
    ∧ (∀ a t, lastMatch a (ts.filter (fun r => r.appType == some "ZORA")) = some t →
        t ∈ (storeTokens existingZora existingTba ts stamp).1.tokens
        ∧ ∀ v ∈ (storeTokens existingZora existingTba ts stamp).1.tokens,
            v.address = some a → v = t)
    ∧ (∀ a t, lastMatch a (ts.filter (fun r => r.appType == some "TBA")) = some t →
        t ∈ (storeTokens existingZora existingTba ts stamp).2.tokens
        ∧ ∀ v ∈ (storeTokens existingZora existingTba ts stamp).2.tokens,
            v.address = some a → v = t)
    ∧ ((((existingZora.map TokensData.tokens).getD []).map TokenMetadata.address).Nodup →
        ∀ t ∈ (existingZora.map TokensData.tokens).getD [], ∀ a, t.address = some a →
          ¬ a = "" → lastMatch a (ts.filter (fun r => r.appType == some "ZORA")) = none →
          t ∈ (storeTokens existingZora existingTba ts stamp).1.tokens)
    ∧ ((((existingTba.map TokensData.tokens).getD []).map TokenMetadata.address).Nodup →
        ∀ t ∈ (existingTba.map TokensData.tokens).getD [], ∀ a, t.address = some a →
          ¬ a = "" → lastMatch a (ts.filter (fun r => r.appType == some "TBA")) = none →
          t ∈ (storeTokens existingZora existingTba ts stamp).2.tokens)
    ∧ (∀ r ∈ (storeTokens existingZora existingTba ts stamp).1.tokens,
        r.appType = some "ZORA"
        ∧ r ∉ (storeTokens existingZora existingTba ts stamp).2.tokens)
    ∧ (∀ r ∈ (storeTokens existingZora existingTba ts stamp).2.tokens,
        r.appType = some "TBA"
        ∧ r ∉ (storeTokens existingZora existingTba ts stamp).1.tokens) := by
  have hz : (storeTokens existingZora existingTba ts stamp).1.tokens
      = mergeTokens ((existingZora.map TokensData.tokens).getD [])
          (ts.filter (fun r => r.appType == some "ZORA")) := rfl
  have htb : (storeTokens existingZora existingTba ts stamp).2.tokens
      = mergeTokens ((existingTba.map TokensData.tokens).getD [])
          (ts.filter (fun r => r.appType == some "TBA")) := rfl
  have hpureZ : ∀ r ∈ (storeTokens existingZora existingTba ts stamp).1.tokens,
      r.appType = some "ZORA" := by
    intro r hr
    rw [hz] at hr
    rcases mergeTokens_origin _ _ r hr with h | h
    · exact hez r h
    · have := List.of_mem_filter h
      simpa using this
  have hpureT : ∀ r ∈ (storeTokens existingZora existingTba ts stamp).2.tokens,
      r.appType = some "TBA" := by
    intro r hr
    rw [htb] at hr
    rcases mergeTokens_origin _ _ r hr with h | h
    · exact het r h
    · have := List.of_mem_filter h
      simpa using this
  refine ⟨⟨?_, ?_⟩, ?_, ?_, ?_, ?_, ?_, ?_⟩
  · rw [hz]
    exact mergeTokens_nodup_addresses _ _
  · rw [htb]
    exact mergeTokens_nodup_addresses _ _
  · intro a t h
    rw [hz]
    exact mergeTokens_newest _ _ a t h
  · intro a t h
    rw [htb]
    exact mergeTokens_newest _ _ a t h
  · intro hnodup t ht a ha hne hnone
    rw [hz]
    exact mergeTokens_preserve _ _ t a hnodup ht ha hne hnone
  · intro hnodup t ht a ha hne hnone
    rw [htb]
    exact mergeTokens_preserve _ _ t a hnodup ht ha hne hnone
  · intro r hr
    refine ⟨hpureZ r hr, fun hmem => ?_⟩
    have h1 := hpureZ r hr
    have h2 := hpureT r hmem
    rw [h1] at h2
    simp at h2
  · intro r hr
    refine ⟨hpureT r hr, fun hmem => ?_⟩
    have h1 := hpureT r hr
    have h2 := hpureZ r hmem
    rw [h1] at h2
    simp at h2

/-- Witness for C2: a concrete store over one existing ZORA record and one
new ZORA record with a different address — the new record is stored and
the old one preserved. -/
theorem storeTokens_partition_spec_witness :
    ({ address := some "0xnew", appType := some "ZORA" } : TokenMetadata)
      ∈ (storeTokens
          (some ⟨[{ address := some "0xold", appType := some "ZORA" }], ⟨"", 1, 0, 0, "ZORA"⟩⟩)
          none [{ address := some "0xnew", appType := some "ZORA" }] "t").1.tokens
    ∧ ({ address := some "0xold", appType := some "ZORA" } : TokenMetadata)
      ∈ (storeTokens
          (some ⟨[{ address := some "0xold", appType := some "ZORA" }], ⟨"", 1, 0, 0, "ZORA"⟩⟩)
          none [{ address := some "0xnew", appType := some "ZORA" }] "t").1.tokens :=
  ⟨((storeTokens_partition_spec
      (some ⟨[{ address := some "0xold", appType := some "ZORA" }], ⟨"", 1, 0, 0, "ZORA"⟩⟩)
      none [{ address := some "0xnew", appType := some "ZORA" }] "t"
      (by decide) (by decide)).2.1 "0xnew"
      { address := some "0xnew", appType := some "ZORA" } (by decide)).1,
   (storeTokens_partition_spec
      (some ⟨[{ address := some "0xold", appType := some "ZORA" }], ⟨"", 1, 0, 0, "ZORA"⟩⟩)
      none [{ address := some "0xnew", appType := some "ZORA" }] "t"
      (by decide) (by decide)).2.2.2.1 (by decide)
      { address := some "0xold", appType := some "ZORA" } (by decide)
      "0xold" rfl (by decide) (by decide)⟩

end TbaBe
